import Mathlib

/-!
# OceanEye trash-collection planner: shallow embedding and verification

This file embeds the planning/animation core of the OceanEye repository
(duplicated near-verbatim in `src/Visual/README.md`,
`src/frontend/components/trash-collection-visualizer.tsx` and
`src/frontend/app/visualization/page.tsx`) and proves the spec's claims
about it.

Modelling conventions:
* JavaScript numbers are modelled by `ℚ` (idealised exact arithmetic);
  the 32-bit integer arithmetic of the RNG (`Math.imul`, `^`, `>>>`, `|`)
  is modelled on `ℕ` with explicit reductions `% 2^32`, which reproduces
  the 32-bit bit patterns exactly.
* `Math.hypot` (the only irrational operation of the core) is a parameter
  `hyp : ℚ → ℚ → ℚ` of every definition that measures distances; each
  theorem states the hypotheses on `hyp` (non-negativity, symmetry under
  negating both arguments) that the real `Math.hypot` satisfies.
* Code that throws is modelled with `Except String`.
* The `while (improved)` loop of the 2-opt refinement is modelled with an
  explicit fuel argument; all verified properties hold for every fuel.
-/

/-- 2-D vector, the `Vec2` type of the source. -/
structure Vec2 where
  x : ℚ
  y : ℚ
deriving DecidableEq, Repr, Inhabited

attribute [ext] Vec2

/-- The fixed 16-category label enum (`TrashLabel` in the source). -/
inductive TrashLabel where
  | rov
  | plant
  | animal_fish
  | animal_starfish
  | animal_shells
  | animal_crab
  | animal_eel
  | animal_etc
  | trash_etc
  | trash_fabric
  | trash_fishing_gear
  | trash_metal
  | trash_paper
  | trash_plastic
  | trash_rubber
  | trash_wood
deriving DecidableEq, Repr, Inhabited

/-- The string spelling of each label (the keys of `TYPE_ICONS`). -/
def labelStr : TrashLabel → String
  | .rov => "rov"
  | .plant => "plant"
  | .animal_fish => "animal_fish"
  | .animal_starfish => "animal_starfish"
  | .animal_shells => "animal_shells"
  | .animal_crab => "animal_crab"
  | .animal_eel => "animal_eel"
  | .animal_etc => "animal_etc"
  | .trash_etc => "trash_etc"
  | .trash_fabric => "trash_fabric"
  | .trash_fishing_gear => "trash_fishing_gear"
  | .trash_metal => "trash_metal"
  | .trash_paper => "trash_paper"
  | .trash_plastic => "trash_plastic"
  | .trash_rubber => "trash_rubber"
  | .trash_wood => "trash_wood"

/-- `TYPE_NAMES`: the integer-code table `0 ↦ rov, …, 15 ↦ trash_wood`. -/
def typeNames : List TrashLabel :=
  [.rov, .plant, .animal_fish, .animal_starfish, .animal_shells, .animal_crab,
   .animal_eel, .animal_etc, .trash_etc, .trash_fabric, .trash_fishing_gear,
   .trash_metal, .trash_paper, .trash_plastic, .trash_rubber, .trash_wood]

/-- Membership test `type in TYPE_ICONS` for a raw string. -/
def labelOfString (s : String) : Option TrashLabel :=
  typeNames.find? (fun t => labelStr t = s)

/-- `p.type.startsWith("animal")` of the source. -/
def isAnimal : TrashLabel → Bool
  | .animal_fish | .animal_starfish | .animal_shells
  | .animal_crab | .animal_eel | .animal_etc => true
  | _ => false

/-- A validated point (`TrashPoint` in the source). -/
structure TrashPoint where
  id : String
  x : ℚ
  y : ℚ
  type : TrashLabel
deriving DecidableEq, Repr, Inhabited

/-- `NormalizedTrashPoint`: a point plus canvas coordinates and icon. -/
structure NormalizedTrashPoint where
  id : String
  x : ℚ
  y : ℚ
  type : TrashLabel
  normX : ℚ
  normY : ℚ
  icon : String
deriving DecidableEq, Repr, Inhabited

/-- The `{x, y}` view of a point that the source's `distance` helper reads
(the source's `distance(a, b)` accesses `a.x`/`a.y`, i.e. the raw
coordinates, even when handed a `NormalizedTrashPoint`). -/
def NormalizedTrashPoint.toVec (p : NormalizedTrashPoint) : Vec2 := ⟨p.x, p.y⟩

/-- `SmoothPath` of the source. -/
structure SmoothPath where
  points : List Vec2
  cumulative : List ℚ
  totalLength : ℚ
  segmentDistances : List ℚ
deriving DecidableEq, Repr, Inhabited

/-- The `environment` field of a plan. -/
inductive Environment where
  | underwater
  | land
deriving DecidableEq, Repr, Inhabited

/-- `Plan` of the source. -/
structure Plan where
  base : NormalizedTrashPoint
  targets : List NormalizedTrashPoint
  orderedTargets : List NormalizedTrashPoint
  smoothPath : SmoothPath
  environment : Environment
  uniqueTypes : List TrashLabel
  normalizedPoints : List NormalizedTrashPoint
deriving DecidableEq, Repr, Inhabited

/-! ## Deterministic RNG (`hashString`, `mulberry32`, `randomInRange`) -/

/-- `hashString`: FNV-1a over the UTF-16 units of the seed string (all seed
strings of the program are ASCII, where code points coincide with UTF-16
units), with 32-bit wrap-around via `Math.imul` modelled as `% 2^32`. -/
def hashString (s : String) : ℕ :=
  s.data.foldl (fun h c => ((h ^^^ c.toNat) * 16777619) % 4294967296) 2166136261

/-- The value of the `n`-th call (`n = 1, 2, …`) of the closure returned by
`mulberry32(seed)`.  The closure advances its captured seed by `0x6d2b79f5`
on each call; every `^`, `>>>`, `|`, `Math.imul` acts on the 32-bit pattern,
modelled by keeping values in `[0, 2^32)`. -/
def mulberry32 (seed n : ℕ) : ℚ :=
  let t0 : ℕ := (seed + n * 0x6d2b79f5) % 4294967296
  let t1 : ℕ := ((t0 ^^^ (t0 >>> 15)) * (t0 ||| 1)) % 4294967296
  let t2 : ℕ := t1 ^^^ ((t1 + ((t1 ^^^ (t1 >>> 7)) * (t1 ||| 61)) % 4294967296) % 4294967296)
  ((t2 ^^^ (t2 >>> 14) : ℕ) : ℚ) / 4294967296

/-- `randomInRange(rng, min, max)` applied to an already-drawn value `r`. -/
def randomInRange (r lo hi : ℚ) : ℚ := lo + r * (hi - lo)

/-- `createDeterministicRng(seed)` followed by the `n`-th draw. -/
def rngDraw (seedSource : String) (n : ℕ) : ℚ :=
  mulberry32 (hashString seedSource) n

/-! ## Progress / animation engine

The source (`trash-collection-visualizer.tsx`, lines 155–169):
`progress` is `0` when `totalLength` is falsy, else `min(1, elapsed / DURATION_MS)`;
`distanceTravelled` is `0` when `totalLength` is falsy, else `totalLength * progress`;
`collectedCount` counts the `segmentDistances` entries `≤ distanceTravelled + 1e-3`. -/

def DURATION_MS : ℚ := 10000

/-- `progress` memo of the visualizer. -/
def progress (plan : Plan) (elapsed : ℚ) : ℚ :=
  if plan.smoothPath.totalLength = 0 then 0
  else min 1 (elapsed / DURATION_MS)

/-- `distanceTravelled` memo of the visualizer. -/
def distanceTravelled (plan : Plan) (elapsed : ℚ) : ℚ :=
  if plan.smoothPath.totalLength = 0 then 0
  else plan.smoothPath.totalLength * progress plan elapsed

/-- `collectedCount` memo of the visualizer. -/
def collectedCount (plan : Plan) (elapsed : ℚ) : ℕ :=
  (plan.smoothPath.segmentDistances.filter
    (fun s => s ≤ distanceTravelled plan elapsed + 1/1000)).length

/-! ## Path smoother (`catmullRom`, `buildSmoothPath`) -/

/-- `catmullRom(p0, p1, p2, p3, t)` of the source, per axis. -/
def catmullRom (p0 p1 p2 p3 : Vec2) (t : ℚ) : Vec2 :=
  let t2 := t * t
  let t3 := t2 * t
  { x := (1/2) * (2 * p1.x + (-p0.x + p2.x) * t
        + (2 * p0.x - 5 * p1.x + 4 * p2.x - p3.x) * t2
        + (-p0.x + 3 * p1.x - 3 * p2.x + p3.x) * t3)
    y := (1/2) * (2 * p1.y + (-p0.y + p2.y) * t
        + (2 * p0.y - 5 * p1.y + 4 * p2.y - p3.y) * t2
        + (-p0.y + 3 * p1.y - 3 * p2.y + p3.y) * t3) }

/-- The mutable state of `buildSmoothPath`'s loops. -/
structure BuildState where
  points : List Vec2
  cumulative : List ℚ
  totalLength : ℚ
  segmentDistances : List ℚ

/-- One iteration of the inner `for (j = 1; j <= samplesPerSegment; j++)`
loop: sample the spline at `t = j / 24`, accumulate the distance from the
previously pushed point. -/
def sampleStep (hyp : ℚ → ℚ → ℚ) (p0 p1 p2 p3 : Vec2) (st : BuildState) (j : ℕ) :
    BuildState :=
  let t : ℚ := (j : ℚ) / 24
  let point := catmullRom p0 p1 p2 p3 t
  let prev := st.points.getLastD ⟨0, 0⟩
  let segmentLength := hyp (point.x - prev.x) (point.y - prev.y)
  { points := st.points ++ [point]
    cumulative := st.cumulative ++ [st.totalLength + segmentLength]
    totalLength := st.totalLength + segmentLength
    segmentDistances := st.segmentDistances }

/-- The body of the outer `for (i = 0; i < waypoints.length - 1; i++)` loop:
run the 24 samples of segment `i`, then push `totalLength` onto
`segmentDistances` (the guard `i < waypoints.length - 1` of the source is
always true inside the loop). -/
def segmentStep (hyp : ℚ → ℚ → ℚ) (waypoints : List Vec2) (st : BuildState) (i : ℕ) :
    BuildState :=
  let p0 := waypoints.getD (if i = 0 then 0 else i - 1) default
  let p1 := waypoints.getD i default
  let p2 := waypoints.getD (i + 1) default
  let p3 := waypoints.getD (i + 2) (waypoints.getD (waypoints.length - 1) default)
  let st1 := (List.range' 1 24).foldl (sampleStep hyp p0 p1 p2 p3) st
  { st1 with segmentDistances := st1.segmentDistances ++ [st1.totalLength] }

/-- `buildSmoothPath(waypoints)` of the source. -/
def buildSmoothPath (hyp : ℚ → ℚ → ℚ) (waypoints : List Vec2) : SmoothPath :=
  if waypoints.length ≤ 1 then
    { points := [waypoints.getD 0 ⟨0, 0⟩], cumulative := [0], totalLength := 0,
      segmentDistances := [] }
  else
    let st0 : BuildState := ⟨[waypoints.getD 0 default], [0], 0, []⟩
    let stF := (List.range (waypoints.length - 1)).foldl (segmentStep hyp waypoints) st0
    ⟨stF.points, stF.cumulative, stF.totalLength, stF.segmentDistances⟩

/-! ## A concrete stand-in for `Math.hypot` used by witnesses

`Math.hypot` itself is irrational; the taxicab norm below is a computable
function with the two properties of `Math.hypot` that the theorems assume
(non-negativity and symmetry under negating both arguments). -/

/-- Taxicab stand-in for `Math.hypot`, used to instantiate witnesses. -/
def absHyp (u v : ℚ) : ℚ := |u| + |v|

/-! ## Normalizer (`normalizePoints`) -/

/-- `TYPE_ICONS[type]` (display only; the glyphs themselves are irrelevant
to every claim, so each icon is the label string). -/
def typeIcon (t : TrashLabel) : String := labelStr t

/-- `normalizePoints(points, width, height)` of the source. -/
def normalizePoints (points : List TrashPoint) (width height : ℚ) :
    List NormalizedTrashPoint :=
  if points.isEmpty then []
  else
    let minX := (points.map (fun p => p.x)).foldr min (points.headD default).x
    let maxX := (points.map (fun p => p.x)).foldr max (points.headD default).x
    let minY := (points.map (fun p => p.y)).foldr min (points.headD default).y
    let maxY := (points.map (fun p => p.y)).foldr max (points.headD default).y
    let rangeX := if maxX - minX = 0 then 1 else maxX - minX
    let rangeY := if maxY - minY = 0 then 1 else maxY - minY
    let padding := min width height * (1/10)
    let drawableWidth := width - padding * 2
    let drawableHeight := height - padding * 2
    let scale := min (drawableWidth / rangeX) (drawableHeight / rangeY)
    let extraX := drawableWidth - rangeX * scale
    let extraY := drawableHeight - rangeY * scale
    let offsetX := padding + extraX / 2
    let offsetY := padding + extraY / 2
    points.map (fun p =>
      { id := p.id, x := p.x, y := p.y, type := p.type
        normX := offsetX + (p.x - minX) * scale
        normY := height - (offsetY + (p.y - minY) * scale)
        icon := typeIcon p.type })

/-! ## Route planner (`orderTargets` and its helpers)

The helpers are stated over an arbitrary element type `α` with a distance
function `d : α → α → ℚ`; `orderTargets` instantiates them at
`NormalizedTrashPoint` with `d a b = hyp (a.x - b.x) (a.y - b.y)`, the
embedding of `distance(a, b) = Math.hypot(a.x - b.x, a.y - b.y)`. -/

/-- `distance(a, b)` of the source (parameterised by the hypot function). -/
def vdist (hyp : ℚ → ℚ → ℚ) (a b : Vec2) : ℚ := hyp (a.x - b.x) (a.y - b.y)

section RoutePlanner

variable {α : Type} [Inhabited α]

/-- The body of `findNearestTarget`'s scan: skip visited indices, adopt the
first candidate, then adopt any strictly closer one (`bestDistance` of the
source always equals the distance to the current `bestIndex`, so it is
recomputed rather than stored). -/
def fnStep (d : α → α → ℚ) (origin : α) (targets : List α) (visited : List ℕ)
    (best : Option ℕ) (i : ℕ) : Option ℕ :=
  if i ∈ visited then best
  else
    match best with
    | none => some i
    | some b =>
        if d origin (targets.getD i default) < d origin (targets.getD b default) then
          some i
        else best

/-- `findNearestTarget(origin, targets, visited)`: linear scan keeping the
first strictly-closest unvisited index; `none` models the source's `-1`. -/
def findNearestTarget (d : α → α → ℚ) (origin : α) (targets : List α)
    (visited : List ℕ) : Option ℕ :=
  (List.range targets.length).foldl (fnStep d origin targets visited) none

/-- The `while (currentIndex !== -1)` loop of `orderTargets`; the source's
`visited` set always equals the set of entries of `route`, so the route
list itself is passed as the visited set.  The loop adds one fresh index
per iteration, so `targets.length` fuel suffices. -/
def nnLoop (d : α → α → ℚ) (targets : List α) :
    ℕ → List ℕ → Option ℕ → List ℕ
  | 0, route, _ => route
  | _ + 1, route, none => route
  | fuel + 1, route, some ci =>
      nnLoop d targets fuel (route ++ [ci])
        (findNearestTarget d (targets.getD ci default) targets (route ++ [ci]))

/-- The nearest-neighbour construction phase of `orderTargets`. -/
def nnRoute (d : α → α → ℚ) (targets : List α) (base : α) : List ℕ :=
  nnLoop d targets targets.length [] (findNearestTarget d base targets [])

/-- The index pairs `(i, j)` visited by the two nested `for` loops of the
2-opt block: `i = 1, …, n-3` and, for each `i`, `j = i+1, …, n-2`
(`n` the route length, constant across the pass). -/
def scanPairs (n : ℕ) : List (ℕ × ℕ) :=
  (List.range' 1 (n - 3)).flatMap
    (fun i => (List.range' (i + 1) (n - 2 - i)).map (fun j => (i, j)))

/-- `reverseRouteSegment(route, start, end)`: the in-place symmetric swap
loop of the source reverses exactly the sub-list from `start` to `end`
inclusive; this is its functional form. -/
def reverseRouteSegment (route : List β) (start finish : ℕ) : List β :=
  route.take start ++ ((route.drop start).take (finish + 1 - start)).reverse
    ++ route.drop (finish + 1)

/-- The body of the 2-opt double loop for one pair `(i, j)`: reverse when
`swappedDistance + 1e-6 < currentDistance`, recording the `improved` flag. -/
def twoOptStep (d : α → α → ℚ) (targets : List α) (st : List ℕ × Bool)
    (p : ℕ × ℕ) : List ℕ × Bool :=
  let route := st.1
  let a := targets.getD (route.getD (p.1 - 1) 0) default
  let b := targets.getD (route.getD p.1 0) default
  let c := targets.getD (route.getD p.2 0) default
  let e := targets.getD (route.getD (p.2 + 1) 0) default
  let currentDistance := d a b + d c e
  let swappedDistance := d a c + d b e
  if swappedDistance + 1/1000000 < currentDistance then
    (reverseRouteSegment route p.1 p.2, true)
  else
    st

/-- One full pass of the 2-opt double loop (`improved` reset to `false`
at the start of each pass). -/
def twoOptPass (d : α → α → ℚ) (targets : List α) (route : List ℕ) :
    List ℕ × Bool :=
  (scanPairs route.length).foldl (twoOptStep d targets) (route, false)

/-- The `while (improved)` loop, with explicit fuel.  For the Euclidean
metric every accepted reversal shrinks the tour by more than `1e-6`, so
the source loop terminates; every property proved below holds for every
fuel value. -/
def twoOptLoop (d : α → α → ℚ) (targets : List α) :
    ℕ → List ℕ → List ℕ
  | 0, route => route
  | fuel + 1, route =>
      let passed := twoOptPass d targets route
      if passed.2 then twoOptLoop d targets fuel passed.1 else passed.1

end RoutePlanner

/-- Fuel given to the 2-opt loop of `orderTargets`. -/
def twoOptFuel (n : ℕ) : ℕ := n ^ n + 1

/-- `orderTargets(targets, base)` of the source: nearest-neighbour
construction, then (for routes of at least 4 stops) 2-opt refinement,
then the indices are mapped back to points. -/
def orderTargets (hyp : ℚ → ℚ → ℚ) (targets : List NormalizedTrashPoint)
    (base : NormalizedTrashPoint) : List NormalizedTrashPoint :=
  if targets.isEmpty then []
  else
    let d := fun a b : NormalizedTrashPoint => vdist hyp a.toVec b.toVec
    let route := nnRoute d targets base
    let refined :=
      if 4 ≤ route.length then twoOptLoop d targets (twoOptFuel route.length) route
      else route
    refined.map (fun i => targets.getD i default)

/-- The nearest-neighbour-only ordering (no 2-opt refinement), used to
state the 2-opt non-regression property. -/
def nnOnlyTargets (hyp : ℚ → ℚ → ℚ) (targets : List NormalizedTrashPoint)
    (base : NormalizedTrashPoint) : List NormalizedTrashPoint :=
  if targets.isEmpty then []
  else
    (nnRoute (fun a b : NormalizedTrashPoint => vdist hyp a.toVec b.toVec)
      targets base).map (fun i => targets.getD i default)

/-- The length of a polyline: the sum of `d` over consecutive entries. -/
def pathLen {α : Type} (d : α → α → ℚ) : List α → ℚ
  | [] => 0
  | [_] => 0
  | a :: b :: t => d a b + pathLen d (b :: t)

/-- Total tour length from a base through an ordered target list. -/
def tourLen {α : Type} (d : α → α → ℚ) (base : α) (route : List α) : ℚ :=
  pathLen d (base :: route)

/-! ## Point generator (`parseInput`, `parseArrayInput`, `parseCountsDictionary`)

This is the throwing variant of `src/Visual/README.md` (also the one in
`src/frontend/app/visualization/page.tsx`); throwing is modelled with
`Except String`.  The input is the already-parsed JSON value: a JS array,
a JS object (an association list, in insertion order, with numeric values
— `ℚ` models JSON numbers), or anything else. -/

/-- A `number | string` type tag. -/
inductive RawType where
  | num (q : ℚ)
  | str (s : String)
deriving DecidableEq, Repr

/-- A raw array entry `{ id?, x, y, type }`; `none` in `x`/`y` stands for a
missing or non-numeric field, `none` in `type` for a missing field. -/
structure RawItem where
  id : Option String
  x : Option ℚ
  y : Option ℚ
  type : Option RawType
deriving DecidableEq, Repr

/-- A parsed JSON input value. -/
inductive JsInput where
  | arr (items : List RawItem)
  | obj (dict : List (String × ℚ))
  | other
deriving DecidableEq, Repr

/-- Decimal digits to a natural number (`none` on empty or non-digit). -/
def natOfDigits (l : List Char) : Option ℕ :=
  if l.isEmpty ∨ l.any (fun c => ¬ c.isDigit) then none
  else some (l.foldl (fun n c => n * 10 + (c.toNat - 48)) 0)

/-- `Number(rawType)` of JavaScript, restricted to the decimal forms
`[+|-] digits [. digits]` together with the empty string (which JS coerces
to `0`); other coercions (hex, exponents, whitespace) are out of scope —
for the inputs this program resolves they reject on both sides. -/
def jsNumber? (s : String) : Option ℚ :=
  if s = "" then some 0
  else
    let body := s.data
    let sgn : ℚ := if body.headD ' ' = '-' then -1 else 1
    let body := if body.headD ' ' = '-' ∨ body.headD ' ' = '+' then body.tail else body
    match (String.mk body).split (fun c => c = '.') with
    | [ip] => (natOfDigits ip.data).map (fun n => sgn * (n : ℚ))
    | [ip, fp] =>
        if ip.isEmpty then
          (natOfDigits fp.data).map (fun f => sgn * (f : ℚ) / (10 : ℚ) ^ fp.length)
        else if fp.isEmpty then
          (natOfDigits ip.data).map (fun n => sgn * (n : ℚ))
        else
          match natOfDigits ip.data, natOfDigits fp.data with
          | some n, some f => some (sgn * ((n : ℚ) + (f : ℚ) / (10 : ℚ) ^ fp.length))
          | _, _ => none
    | _ => none

/-- `resolveType` of the README/page source: an integer code indexes
`TYPE_NAMES` (a fractional or out-of-range number finds no property, hence
`undefined`); a string must be an exact key of `TYPE_ICONS`. -/
def resolveType : RawType → Option TrashLabel
  | .num q => if q.den = 1 ∧ 0 ≤ q.num then typeNames.get? q.num.toNat else none
  | .str s => labelOfString s

/-- `parseArrayInput`, with the running index threaded explicitly;
the first offending entry raises. -/
def parseArrayInput : List RawItem → ℕ → Except String (List TrashPoint)
  | [], _ => .ok []
  | item :: rest, i =>
    match item.x, item.y with
    | some x, some y =>
        match item.type with
        | none => .error ("Detection at index " ++ toString i ++ " is missing a type.")
        | some rt =>
            match resolveType rt with
            | none =>
                .error ("Detection at index " ++ toString i ++ " has an unknown type.")
            | some t =>
                (parseArrayInput rest (i + 1)).map
                  (fun ps => ⟨item.id.getD ("point-" ++ toString i), x, y, t⟩ :: ps)
    | _, _ =>
        .error ("Detection at index " ++ toString i ++ " is missing numeric x/y coordinates.")

/-- The `entries.map(...)` validation of `parseCountsDictionary`: reject a
non-positive count (`typeof count !== "number"` and `!Number.isFinite`
have no inhabitants in the `ℚ` model), resolve the key — a numeric string
is coerced with `Number` first — and floor the count. -/
def validateEntries : List (String × ℚ) → Except String (List (TrashLabel × ℤ))
  | [] => .ok []
  | (rawType, count) :: rest =>
      if count ≤ 0 then
        .error ("Invalid count for type " ++ rawType ++ ". Counts must be positive numbers.")
      else
        let typeValue : RawType :=
          match jsNumber? rawType with
          | some q => .num q
          | none => .str rawType
        match resolveType typeValue with
        | none => .error ("Unknown trash type " ++ rawType ++ ".")
        | some t => (validateEntries rest).map (fun l => (t, Int.floor count) :: l)

/-- Insert a string into an ascending list, after any equal entries. -/
def insertString (s : String) : List String → List String
  | [] => [s]
  | x :: xs => if s < x then s :: x :: xs else x :: insertString s xs

/-- `Array.prototype.sort` with `localeCompare`, modelled as a stable sort
in the standard string order (the two orders agree on the label/digit
strings this program sorts). -/
def sortStrings (l : List String) : List String :=
  l.foldl (fun acc s => insertString s acc) []

/-- Insert an entry into a list ascending by label, after equal labels. -/
def insertEntry (e : TrashLabel × ℤ) :
    List (TrashLabel × ℤ) → List (TrashLabel × ℤ)
  | [] => [e]
  | x :: xs => if labelStr e.1 < labelStr x.1 then e :: x :: xs else x :: insertEntry e xs

/-- `normalizedEntries.sort(([a], [b]) => a.localeCompare(b))`. -/
def sortEntries (l : List (TrashLabel × ℤ)) : List (TrashLabel × ℤ) :=
  l.foldl (fun acc e => insertEntry e acc) []

/-- `JSON.stringify` of a list of strings (none of the strings this program
serialises needs escaping). -/
def jsonStringifyList (l : List String) : String :=
  "[" ++ String.intercalate "," (l.map (fun s => "\"" ++ s ++ "\"")) ++ "]"

/-- The points of one category: for local index `i` the point seed is
`` `${seedSource}:${globalIndex}` `` and x, y are the first two draws of a
fresh `mulberry32` stream hashed from that seed, mapped into `[10, 90]`. -/
def pointsFor (seedSource : String) (t : TrashLabel) (count gstart : ℕ) :
    List TrashPoint :=
  (List.range count).map (fun i =>
    let pointSeed := seedSource ++ ":" ++ toString (gstart + i)
    { id := labelStr t ++ "-" ++ toString (i + 1)
      type := t
      x := randomInRange (rngDraw pointSeed 1) 10 90
      y := randomInRange (rngDraw pointSeed 2) 10 90 })

/-- The generation loop over the sorted entries, threading `globalIndex`. -/
def genPoints (seedSource : String) :
    List (TrashLabel × ℤ) → ℕ → List TrashPoint
  | [], _ => []
  | (t, c) :: rest, g =>
      pointsFor seedSource t c.toNat g ++ genPoints seedSource rest (g + c.toNat)

/-- `parseCountsDictionary` of the README/page source. -/
def parseCountsDictionary (dict : List (String × ℚ)) :
    Except String (List TrashPoint) :=
  if dict.isEmpty then
    .error "Counts dictionary is empty. Provide at least one item."
  else
    (validateEntries dict).map (fun normalizedEntries =>
      let sortedSeedParts :=
        sortStrings (normalizedEntries.map (fun e => labelStr e.1 ++ ":" ++ toString e.2))
      let seedSource := jsonStringifyList sortedSeedParts
      genPoints seedSource (sortEntries normalizedEntries) 0)

/-- `parseInput` of the README/page source (post-`JSON.parse`). -/
def parseInput : JsInput → Except String (List TrashPoint)
  | .arr items => parseArrayInput items 0
  | .obj dict => parseCountsDictionary dict
  | .other =>
      .error "Input must be either an array of detections or an object mapping types to counts."

/-- `true` exactly on `Except.error`. -/
def isErr {ε σ : Type} : Except ε σ → Bool
  | .error _ => true
  | .ok _ => false

/-! ## Plan construction (`buildPlan`) -/

/-- `average(values)` of the source. -/
def average (values : List ℚ) : ℚ := values.sum / values.length

/-- First-occurrence deduplication, i.e. `Array.from(new Set(l))`. -/
def uniqueInOrder {α : Type} [DecidableEq α] : List α → List α
  | [] => []
  | x :: xs => x :: uniqueInOrder (xs.filter (fun y => ¬ y = x))
termination_by l => l.length
decreasing_by
  simp only [List.length_cons]
  exact Nat.lt_succ_of_le (List.length_filter_le _ _)

/-- `buildPlan(points, canvasSize)` of the source: synthesise a centroid
ROV when none is present, normalise, order the targets, smooth the
waypoints, classify the environment, collect the distinct types. -/
def buildPlan (hyp : ℚ → ℚ → ℚ) (points : List TrashPoint) (width height : ℚ) :
    Plan :=
  let hasRov := points.any (fun p => p.type == TrashLabel.rov)
  let augmentedPoints :=
    if hasRov then points
    else points ++ [{ id := "synthetic-rov", type := .rov,
                      x := average (points.map (fun p => p.x)),
                      y := average (points.map (fun p => p.y)) }]
  let normalizedPoints := normalizePoints augmentedPoints width height
  let base := (normalizedPoints.find? (fun p => p.type == TrashLabel.rov)).getD default
  let targets := normalizedPoints.filter (fun p => ¬ p.id = base.id)
  let orderedTargets := orderTargets hyp targets base
  let waypoints := (base :: orderedTargets).map (fun p => Vec2.mk p.normX p.normY)
  let smoothPath := buildSmoothPath hyp waypoints
  let environment :=
    if points.any (fun p => isAnimal p.type) then Environment.underwater
    else Environment.land
  let uniqueTypes := uniqueInOrder (normalizedPoints.map (fun p => p.type))
  ⟨base, targets, orderedTargets, smoothPath, environment, uniqueTypes, normalizedPoints⟩

/-- The caller-side guard `if (!trashPoints.length) return null`. -/
def planOf (hyp : ℚ → ℚ → ℚ) (trashPoints : List TrashPoint) (width height : ℚ) :
    Option Plan :=
  if trashPoints.isEmpty then none
  else some (buildPlan hyp trashPoints width height)

/-- The full pipeline on a count dictionary: generation, then planning
(normalisation, routing, smoothing). -/
def pipeline (hyp : ℚ → ℚ → ℚ) (dict : List (String × ℚ)) (width height : ℚ) :
    Except String (Option Plan) :=
  (parseCountsDictionary dict).map (fun pts => planOf hyp pts width height)

/-! ## The claimed error condition of the point generator (C5)

Modelled from the spec's words: "Fails with ValidationError when: the
input is neither array nor object; an array entry lacks numeric
coordinates; a dictionary count is non-positive or non-finite; a type
cannot be resolved."  (`non-finite` has no inhabitant in the `ℚ` model.) -/

/-- "an array entry lacks numeric coordinates". -/
def lacksCoords (it : RawItem) : Bool := it.x.isNone || it.y.isNone

/-- "a type cannot be resolved" for an array entry (a missing type cannot
be resolved either). -/
def cannotResolve (it : RawItem) : Bool :=
  match it.type with
  | none => true
  | some rt => (resolveType rt).isNone

/-- The `number | string` view of a dictionary key (the code coerces a
numeric key with `Number` before resolving). -/
def rawKeyType (s : String) : RawType :=
  match jsNumber? s with
  | some q => .num q
  | none => .str s

/-- The error condition exactly as the claim states it. -/
def claimedErrCond : JsInput → Prop
  | .other => True
  | .arr items => ∃ it ∈ items, lacksCoords it = true ∨ cannotResolve it = true
  | .obj dict =>
      (∃ e ∈ dict, e.2 ≤ 0) ∨ (∃ e ∈ dict, resolveType (rawKeyType e.1) = none)

/-- The amended error condition: the claim's conditions plus the empty
count dictionary, which the code also rejects. -/
def amendedErrCond (inp : JsInput) : Prop :=
  claimedErrCond inp ∨ inp = .obj []

/-! ## Concrete data used by witnesses -/

/-- A concrete normalized point for witnesses. -/
def wPt (id : String) (x y : ℚ) : NormalizedTrashPoint :=
  ⟨id, x, y, .trash_plastic, x, y, "icon"⟩

/-- Concrete witness targets. -/
def wTargets : List NormalizedTrashPoint :=
  [wPt "a" 0 0, wPt "b" 10 0, wPt "c" 10 10, wPt "d" 0 10, wPt "e" 5 20]

/-- Concrete witness base. -/
def wBase : NormalizedTrashPoint := wPt "base" (-5) 0

/-! ## Concrete plans used by witnesses -/

/-- A plan with a strictly positive total path length. -/
def planPos : Plan :=
  { base := default, targets := [], orderedTargets := []
    smoothPath := { points := [], cumulative := [], totalLength := 5,
                    segmentDistances := [] }
    environment := .land, uniqueTypes := [], normalizedPoints := [] }

/-- A plan with a zero-length path (all points co-located). -/
def planZero : Plan :=
  { base := default, targets := [], orderedTargets := []
    smoothPath := { points := [], cumulative := [], totalLength := 0,
                    segmentDistances := [] }
    environment := .land, uniqueTypes := [], normalizedPoints := [] }

/-! ## Proof machinery: loop invariants and sample blocks -/

/-- The invariant of `buildSmoothPath`'s loop state: `points` is nonempty,
`cumulative` parallels `points`, ends at `totalLength`, and is
non-decreasing. -/
def goodState (st : BuildState) : Prop :=
  st.points ≠ [] ∧
  st.cumulative.length = st.points.length ∧
  st.cumulative.getLastD 0 = st.totalLength ∧
  st.cumulative.Chain' (fun a b => a ≤ b)

/-- The 24 spline samples contributed by segment `i` of `buildSmoothPath`
(they depend only on the waypoints, not on the running state). -/
def blockPoints (wps : List Vec2) (i : ℕ) : List Vec2 :=
  (List.range' 1 24).map (fun j : ℕ =>
    catmullRom (wps.getD (if i = 0 then 0 else i - 1) default)
      (wps.getD i default) (wps.getD (i + 1) default)
      (wps.getD (i + 2) (wps.getD (wps.length - 1) default))
      ((j : ℚ) / 24))

/-! ## Claims -/

/-- C1: for every fixed count dictionary and canvas size, two independent
runs of the full pipeline (`parseCountsDictionary` followed by `buildPlan`)
produce bit-identical output plans.  The embedded pipeline — point
generation with all randomness drawn from the FNV-1a-hash + mulberry32
RNG seeded only by the dictionary, normalisation, route planning and
spline smoothing — is a pure function of `(dictionary, canvas size)`, so
any two runs on the same inputs coincide. -/
theorem C1_pipeline_deterministic (hyp : ℚ → ℚ → ℚ) (dict : List (String × ℚ))
    (w h : ℚ) (run1 run2 : Except String (Option Plan))
    (h1 : run1 = pipeline hyp dict w h) (h2 : run2 = pipeline hyp dict w h) :
    run1 = run2 :=
  h1.trans h2.symm

/-- Witness for C1 at the dictionary `{trash_plastic: 2, trash_metal: 1}`
on a 300×300 canvas. -/
theorem C1_pipeline_deterministic_witness :
    pipeline absHyp [("trash_plastic", 2), ("trash_metal", 1)] 300 300 =
      pipeline absHyp [("trash_plastic", 2), ("trash_metal", 1)] 300 300 :=
  C1_pipeline_deterministic absHyp [("trash_plastic", 2), ("trash_metal", 1)]
    300 300 _ _ rfl rfl

/-- C4: for a plan with strictly positive `totalLength` the engine computes
`progress = min(1, e / D)` and `traveledDistance = totalLength * progress`;
at `e = D` it reports `progress = 1` and the full `totalLength`, whatever
the path length or point count. -/
theorem C4_progress_engine (plan : Plan) (e : ℚ)
    (h : 0 < plan.smoothPath.totalLength) :
    progress plan e = min 1 (e / DURATION_MS) ∧
    distanceTravelled plan e = plan.smoothPath.totalLength * progress plan e ∧
    progress plan DURATION_MS = 1 ∧
    distanceTravelled plan DURATION_MS = plan.smoothPath.totalLength := by
  have hne : plan.smoothPath.totalLength ≠ 0 := ne_of_gt h
  refine ⟨?_, ?_, ?_, ?_⟩ <;>
    simp [progress, distanceTravelled, hne, DURATION_MS]

/-- Witness for C4 on a concrete plan of total length 5, queried at
`e = 2500` and at `e = D`. -/
theorem C4_progress_engine_witness :
    progress planPos 2500 = min 1 (2500 / DURATION_MS) ∧
    distanceTravelled planPos 2500 = planPos.smoothPath.totalLength * progress planPos 2500 ∧
    progress planPos DURATION_MS = 1 ∧
    distanceTravelled planPos DURATION_MS = planPos.smoothPath.totalLength :=
  C4_progress_engine planPos 2500 (by norm_num [planPos])

/-- C7 counterexample: on 0 waypoints `buildSmoothPath` does not return an
empty path — it returns the one-point path `[{x: 0, y: 0}]` (with total
length 0), so the claim's "empty path" is false as stated. -/
theorem C7_counterexample :
    (buildSmoothPath absHyp []).points ≠ [] ∧
    (buildSmoothPath absHyp []).points = [⟨0, 0⟩] ∧
    (buildSmoothPath absHyp []).totalLength = 0 := by
  refine ⟨?_, rfl, rfl⟩
  decide

/-- C7 as amended: on 0 waypoints `buildSmoothPath` returns the single
synthetic point `{x: 0, y: 0}` with `totalLength = 0` (not an empty points
list), and on exactly 1 waypoint it returns that single-point path with
`totalLength = 0`. -/
theorem C7_degenerate_waypoints (hyp : ℚ → ℚ → ℚ) (p : Vec2) :
    buildSmoothPath hyp [] =
      { points := [⟨0, 0⟩], cumulative := [0], totalLength := 0,
        segmentDistances := [] } ∧
    buildSmoothPath hyp [p] =
      { points := [p], cumulative := [0], totalLength := 0,
        segmentDistances := [] } :=
  ⟨rfl, rfl⟩

/-- C10: when a plan's `totalLength` is 0 the engine reports `progress = 0`
and `traveledDistance = 0` at every elapsed time — playback of a
zero-length path never reports completion. -/
theorem C10_zero_length_never_completes (plan : Plan) (e : ℚ)
    (h : plan.smoothPath.totalLength = 0) :
    progress plan e = 0 ∧ distanceTravelled plan e = 0 := by
  simp [progress, distanceTravelled, h]

/-- Witness for C10 on a concrete zero-length plan queried past `D`. -/
theorem C10_zero_length_never_completes_witness :
    progress planZero 20000 = 0 ∧ distanceTravelled planZero 20000 = 0 :=
  C10_zero_length_never_completes planZero 20000 (by norm_num [planZero])

/-! ## Facts about the witness hypot stand-in -/

theorem absHyp_nonneg (u v : ℚ) : 0 ≤ absHyp u v := by
  unfold absHyp
  positivity

theorem absHyp_symm (u v : ℚ) : absHyp u v = absHyp (-u) (-v) := by
  simp [absHyp]

/-! ## Smoother: state-invariant lemmas (towards C3) -/

theorem sampleStep_good (hyp : ℚ → ℚ → ℚ) (hpos : ∀ u v, 0 ≤ hyp u v)
    (p0 p1 p2 p3 : Vec2) (st : BuildState) (j : ℕ) (h : goodState st) :
    goodState (sampleStep hyp p0 p1 p2 p3 st j) := by
  obtain ⟨hne, hlen, hlast, hchain⟩ := h
  have hcne : st.cumulative ≠ [] := by
    intro hc
    rw [hc] at hlen
    exact hne (List.length_eq_zero.mp hlen.symm)
  refine ⟨by simp [sampleStep], by simp [sampleStep, hlen], ?_, ?_⟩
  · simp [sampleStep, List.getLastD_concat]
  · show List.Chain' (fun a b => a ≤ b) (st.cumulative ++ [_])
    refine List.chain'_append.mpr ⟨hchain, List.chain'_singleton _, ?_⟩
    intro a ha y hy
    simp only [List.head?_cons, Option.mem_def, Option.some.injEq] at hy
    have haval : a = st.totalLength := by
      rw [← hlast, List.getLastD_eq_getLast?, ha]
      rfl
    subst haval
    rw [← hy]
    have := hpos (((catmullRom p0 p1 p2 p3 ((j : ℚ) / 24)).x
        - (st.points.getLastD ⟨0, 0⟩).x))
      (((catmullRom p0 p1 p2 p3 ((j : ℚ) / 24)).y
        - (st.points.getLastD ⟨0, 0⟩).y))
    linarith

theorem foldl_sampleStep_good (hyp : ℚ → ℚ → ℚ) (hpos : ∀ u v, 0 ≤ hyp u v)
    (p0 p1 p2 p3 : Vec2) (l : List ℕ) :
    ∀ st : BuildState, goodState st →
      goodState (l.foldl (sampleStep hyp p0 p1 p2 p3) st) := by
  induction l with
  | nil => intro st h; exact h
  | cons j l ih =>
      intro st h
      exact ih _ (sampleStep_good hyp hpos p0 p1 p2 p3 st j h)

theorem goodState_withSeg (st : BuildState) (X : List ℚ) (h : goodState st) :
    goodState { st with segmentDistances := X } :=
  ⟨h.1, h.2.1, h.2.2.1, h.2.2.2⟩

theorem segmentStep_good (hyp : ℚ → ℚ → ℚ) (hpos : ∀ u v, 0 ≤ hyp u v)
    (wps : List Vec2) (st : BuildState) (i : ℕ) (h : goodState st) :
    goodState (segmentStep hyp wps st i) := by
  simp only [segmentStep]
  exact goodState_withSeg _ _
    (foldl_sampleStep_good hyp hpos _ _ _ _ (List.range' 1 24) st h)

theorem foldl_segmentStep_good (hyp : ℚ → ℚ → ℚ) (hpos : ∀ u v, 0 ≤ hyp u v)
    (wps : List Vec2) (n : ℕ) :
    ∀ st : BuildState, goodState st →
      goodState ((List.range n).foldl (segmentStep hyp wps) st) := by
  induction n with
  | zero => intro st h; exact h
  | succ n ih =>
      intro st h
      rw [List.range_succ, List.foldl_append]
      exact segmentStep_good hyp hpos wps _ n (ih st h)

/-- C3: for every waypoint list, `buildSmoothPath` returns `cumulative` of
the same length as `points`, non-decreasing, with last entry exactly
`totalLength`.  Hypothesis: the hypot function is non-negative (true of
`Math.hypot`). -/
theorem C3_arc_length_invariants (hyp : ℚ → ℚ → ℚ) (hpos : ∀ u v, 0 ≤ hyp u v)
    (waypoints : List Vec2) :
    (buildSmoothPath hyp waypoints).cumulative.length
        = (buildSmoothPath hyp waypoints).points.length ∧
    List.Chain' (fun a b => a ≤ b) (buildSmoothPath hyp waypoints).cumulative ∧
    (buildSmoothPath hyp waypoints).cumulative.getLastD 0
        = (buildSmoothPath hyp waypoints).totalLength := by
  unfold buildSmoothPath
  by_cases hlen : waypoints.length ≤ 1
  · rw [if_pos hlen]
    exact ⟨rfl, List.chain'_singleton _, rfl⟩
  · rw [if_neg hlen]
    have h0 : goodState ⟨[waypoints.getD 0 default], [0], 0, []⟩ :=
      ⟨by simp, by simp, by simp, List.chain'_singleton _⟩
    have h := foldl_segmentStep_good hyp hpos waypoints (waypoints.length - 1) _ h0
    exact ⟨h.2.1, h.2.2.2, h.2.2.1⟩

/-- Witness for C3 on the concrete two-waypoint path `[(0,0), (3,4)]` with
the taxicab hypot stand-in. -/
theorem C3_arc_length_invariants_witness :
    (buildSmoothPath absHyp [⟨0, 0⟩, ⟨3, 4⟩]).cumulative.length
        = (buildSmoothPath absHyp [⟨0, 0⟩, ⟨3, 4⟩]).points.length ∧
    List.Chain' (fun a b => a ≤ b) (buildSmoothPath absHyp [⟨0, 0⟩, ⟨3, 4⟩]).cumulative ∧
    (buildSmoothPath absHyp [⟨0, 0⟩, ⟨3, 4⟩]).cumulative.getLastD 0
        = (buildSmoothPath absHyp [⟨0, 0⟩, ⟨3, 4⟩]).totalLength :=
  C3_arc_length_invariants absHyp absHyp_nonneg [⟨0, 0⟩, ⟨3, 4⟩]

/-! ## Smoother: sample positions (towards C9) -/

theorem catmullRom_one (p0 p1 p2 p3 : Vec2) : catmullRom p0 p1 p2 p3 1 = p2 := by
  unfold catmullRom
  ext <;> simp <;> ring

theorem foldl_sampleStep_points (hyp : ℚ → ℚ → ℚ) (p0 p1 p2 p3 : Vec2)
    (l : List ℕ) :
    ∀ st : BuildState,
      (l.foldl (sampleStep hyp p0 p1 p2 p3) st).points
        = st.points ++ l.map (fun j : ℕ => catmullRom p0 p1 p2 p3 ((j : ℚ) / 24)) := by
  induction l with
  | nil => intro st; simp
  | cons j l ih =>
      intro st
      rw [List.foldl_cons, ih]
      simp only [sampleStep, List.map_cons]
      rw [List.append_assoc]
      rfl

theorem segmentStep_points (hyp : ℚ → ℚ → ℚ) (wps : List Vec2)
    (st : BuildState) (i : ℕ) :
    (segmentStep hyp wps st i).points = st.points ++ blockPoints wps i := by
  simp only [segmentStep, blockPoints]
  rw [foldl_sampleStep_points]

theorem foldl_segmentStep_points (hyp : ℚ → ℚ → ℚ) (wps : List Vec2) (n : ℕ) :
    ∀ st : BuildState,
      ((List.range n).foldl (segmentStep hyp wps) st).points
        = st.points ++ (List.range n).flatMap (blockPoints wps) := by
  induction n with
  | zero => intro st; simp
  | succ n ih =>
      intro st
      rw [List.range_succ, List.foldl_append, List.flatMap_append,
        List.foldl_cons, List.foldl_nil, segmentStep_points, ih,
        List.append_assoc]
      simp

theorem length_blockPoints (wps : List Vec2) (i : ℕ) :
    (blockPoints wps i).length = 24 := by
  unfold blockPoints
  rw [List.length_map, List.length_range']

theorem length_flatMap_blockPoints (wps : List Vec2) (n : ℕ) :
    ((List.range n).flatMap (blockPoints wps)).length = 24 * n := by
  induction n with
  | zero => simp
  | succ n ih =>
      rw [List.range_succ, List.flatMap_append, List.length_append, ih]
      simp only [List.flatMap_cons, List.flatMap_nil, List.append_nil,
        length_blockPoints]
      ring

theorem blockPoints_getD_23 (wps : List Vec2) (i : ℕ) :
    (blockPoints wps i).getD 23 default = wps.getD (i + 1) default := by
  have hred : (blockPoints wps i).getD 23 default
      = catmullRom (wps.getD (if i = 0 then 0 else i - 1) default)
        (wps.getD i default) (wps.getD (i + 1) default)
        (wps.getD (i + 2) (wps.getD (wps.length - 1) default))
        (((24 : ℕ) : ℚ) / 24) := rfl
  rw [hred]
  have h1 : (((24 : ℕ) : ℚ) / 24) = 1 := by norm_num
  rw [h1, catmullRom_one]

theorem points_at_multiples (wps : List Vec2) :
    ∀ n k, k ≤ n →
      ((wps.getD 0 default) :: (List.range n).flatMap (blockPoints wps)).getD
          (24 * k) default
        = wps.getD k default := by
  intro n
  induction n with
  | zero =>
      intro k hk
      have hk0 : k = 0 := Nat.le_zero.mp hk
      subst hk0
      simp
  | succ n ih =>
      intro k hk
      rw [List.range_succ, List.flatMap_append, ← List.cons_append]
      rcases Nat.lt_or_ge k (n + 1) with hlt | hge
      · have hk' : k ≤ n := Nat.lt_succ_iff.mp hlt
        rw [List.getD_append]
        · exact ih k hk'
        · simp only [List.length_cons, length_flatMap_blockPoints]
          omega
      · have hk1 : k = n + 1 := le_antisymm hk hge
        subst hk1
        have hlen : ((wps.getD 0 default) ::
            (List.range n).flatMap (blockPoints wps)).length = 1 + 24 * n := by
          rw [List.length_cons, length_flatMap_blockPoints]
          omega
        rw [List.getD_append_right _ _ _ _ (by rw [hlen]; omega)]
        rw [hlen]
        have hidx : 24 * (n + 1) - (1 + 24 * n) = 23 := by omega
        rw [hidx]
        simp only [List.flatMap_cons, List.flatMap_nil, List.append_nil]
        exact blockPoints_getD_23 wps n

/-- C9: a Catmull-Rom segment ends exactly at its `p2` control point, and
consequently every 24th sample of `buildSmoothPath` is exactly the
corresponding waypoint: the smooth curve passes through the base and every
ordered target position. -/
theorem C9_spline_hits_waypoints (hyp : ℚ → ℚ → ℚ) (wps : List Vec2)
    (h2 : 2 ≤ wps.length) :
    (∀ p0 p1 p2 p3 : Vec2, catmullRom p0 p1 p2 p3 1 = p2) ∧
    ∀ k, k < wps.length →
      (buildSmoothPath hyp wps).points.getD (24 * k) default
        = wps.getD k default := by
  refine ⟨catmullRom_one, ?_⟩
  intro k hk
  unfold buildSmoothPath
  rw [if_neg (by omega)]
  show (((List.range (wps.length - 1)).foldl (segmentStep hyp wps)
      ⟨[wps.getD 0 default], [0], 0, []⟩).points).getD (24 * k) default
    = wps.getD k default
  rw [foldl_segmentStep_points]
  show ((wps.getD 0 default) ::
      (List.range (wps.length - 1)).flatMap (blockPoints wps)).getD (24 * k) default
    = wps.getD k default
  exact points_at_multiples wps (wps.length - 1) k (by omega)

/-- Witness for C9 on the concrete waypoints `[(0,0), (1,2)]`: the sample
at index 24 is the second waypoint. -/
theorem C9_spline_hits_waypoints_witness :
    (buildSmoothPath absHyp [⟨0, 0⟩, ⟨1, 2⟩]).points.getD (24 * 1) default
      = Vec2.mk 1 2 :=
  (C9_spline_hits_waypoints absHyp [⟨0, 0⟩, ⟨1, 2⟩] (by norm_num)).2 1 (by norm_num)

/-! ## Route planner: nearest-neighbour scan lemmas (towards C2) -/

section RouteProofs

variable {α : Type} [Inhabited α]

theorem foldl_fnStep_bounds (d : α → α → ℚ) (origin : α) (targets : List α)
    (visited : List ℕ) (n : ℕ) :
    ∀ (l : List ℕ) (best : Option ℕ),
      (∀ x ∈ l, x < n) →
      (∀ b, best = some b → b < n ∧ b ∉ visited) →
      ∀ c, l.foldl (fnStep d origin targets visited) best = some c →
        c < n ∧ c ∉ visited := by
  intro l
  induction l with
  | nil => intro best _ hbest c hc; exact hbest c hc
  | cons x t ih =>
      intro best hl hbest c hc
      rw [List.foldl_cons] at hc
      refine ih _ (fun y hy => hl y (List.mem_cons_of_mem _ hy)) ?_ c hc
      intro b hb
      unfold fnStep at hb
      by_cases hxv : x ∈ visited
      · rw [if_pos hxv] at hb
        exact hbest b hb
      · rw [if_neg hxv] at hb
        match best, hbest with
        | none, _ =>
            simp only [Option.some.injEq] at hb
            subst hb
            exact ⟨hl x (List.mem_cons_self x t), hxv⟩
        | some b0, hbest =>
            dsimp only at hb
            by_cases hcl : d origin (targets.getD x default)
                < d origin (targets.getD b0 default)
            · rw [if_pos hcl] at hb
              simp only [Option.some.injEq] at hb
              subst hb
              exact ⟨hl x (List.mem_cons_self x t), hxv⟩
            · rw [if_neg hcl] at hb
              exact hbest b hb

theorem foldl_fnStep_none (d : α → α → ℚ) (origin : α) (targets : List α)
    (visited : List ℕ) :
    ∀ (l : List ℕ) (best : Option ℕ),
      l.foldl (fnStep d origin targets visited) best = none →
      ∀ x ∈ l, x ∈ visited := by
  intro l
  induction l with
  | nil => intro best _ x hx; cases hx
  | cons x t ih =>
      intro best hfold y hy
      rw [List.foldl_cons] at hfold
      rcases List.mem_cons.mp hy with hyx | hyt
      · subst hyx
        by_cases hxv : y ∈ visited
        · exact hxv
        · exfalso
          have hsome : ∃ c, fnStep d origin targets visited best y = some c := by
            unfold fnStep
            rw [if_neg hxv]
            match best with
            | none => exact ⟨y, rfl⟩
            | some b0 =>
                dsimp only
                by_cases hcl : d origin (targets.getD y default)
                    < d origin (targets.getD b0 default)
                · exact ⟨y, by rw [if_pos hcl]⟩
                · exact ⟨b0, by rw [if_neg hcl]⟩
          obtain ⟨c, hc⟩ := hsome
          rw [hc] at hfold
          have : ∀ (m : List ℕ) (b0 : ℕ),
              m.foldl (fnStep d origin targets visited) (some b0) ≠ none := by
            intro m
            induction m with
            | nil => intro b0 h; cases h
            | cons z m ihm =>
                intro b0 h
                rw [List.foldl_cons] at h
                unfold fnStep at h
                by_cases hzv : z ∈ visited
                · rw [if_pos hzv] at h
                  exact ihm b0 h
                · rw [if_neg hzv] at h
                  dsimp only at h
                  by_cases hcl : d origin (targets.getD z default)
                      < d origin (targets.getD b0 default)
                  · rw [if_pos hcl] at h
                    exact ihm z h
                  · rw [if_neg hcl] at h
                    exact ihm b0 h
          exact this t c hfold
      · exact ih _ hfold y hyt

theorem findNearestTarget_some (d : α → α → ℚ) (origin : α) (targets : List α)
    (visited : List ℕ) (c : ℕ)
    (h : findNearestTarget d origin targets visited = some c) :
    c < targets.length ∧ c ∉ visited := by
  unfold findNearestTarget at h
  exact foldl_fnStep_bounds d origin targets visited targets.length _ none
    (fun x hx => List.mem_range.mp hx) (fun b hb => by cases hb) c h

theorem findNearestTarget_none (d : α → α → ℚ) (origin : α) (targets : List α)
    (visited : List ℕ)
    (h : findNearestTarget d origin targets visited = none) :
    ∀ i < targets.length, i ∈ visited := by
  intro i hi
  unfold findNearestTarget at h
  exact foldl_fnStep_none d origin targets visited _ none h i (List.mem_range.mpr hi)

theorem perm_range_of_nodup_bounded (l : List ℕ) (n : ℕ) (hnd : l.Nodup)
    (hb : ∀ x ∈ l, x < n) (hlen : n ≤ l.length) : l.Perm (List.range n) := by
  have hsub : l ⊆ List.range n := fun x hx => List.mem_range.mpr (hb x hx)
  have h1 : l.Subperm (List.range n) := List.subperm_of_subset hnd hsub
  exact h1.perm_of_length_le (by simpa using hlen)

theorem nnLoop_perm (d : α → α → ℚ) (targets : List α) :
    ∀ (fuel : ℕ) (route : List ℕ) (cur : Option ℕ),
      route.Nodup → (∀ x ∈ route, x < targets.length) →
      (cur = none → ∀ i < targets.length, i ∈ route) →
      (∀ i, cur = some i → i < targets.length ∧ i ∉ route) →
      targets.length ≤ fuel + route.length →
      (nnLoop d targets fuel route cur).Perm (List.range targets.length) := by
  intro fuel
  induction fuel with
  | zero =>
      intro route cur hnd hb _ _ hlen
      exact perm_range_of_nodup_bounded route _ hnd hb (by omega)
  | succ fuel ih =>
      intro route cur hnd hb hnone hsome hlen
      cases cur with
      | none =>
          simp only [nnLoop]
          have h1 : route.Subperm (List.range targets.length) :=
            List.subperm_of_subset hnd (fun x hx => List.mem_range.mpr (hb x hx))
          have h2 : (List.range targets.length).Subperm route :=
            List.subperm_of_subset (List.nodup_range _)
              (fun x hx => hnone rfl x (List.mem_range.mp hx))
          exact h1.antisymm h2
      | some ci =>
          simp only [nnLoop]
          obtain ⟨hci, hnotin⟩ := hsome ci rfl
          refine ih (route ++ [ci]) _ ?_ ?_ ?_ ?_ ?_
          · rw [List.nodup_append]
            refine ⟨hnd, List.nodup_singleton ci, ?_⟩
            intro a ha hamem
            rw [List.mem_singleton] at hamem
            subst hamem
            exact hnotin ha
          · intro x hx
            rcases List.mem_append.mp hx with h | h
            · exact hb x h
            · rw [List.mem_singleton] at h
              subst h
              exact hci
          · intro hfind i hi
            exact findNearestTarget_none d _ targets _ hfind i hi
          · intro i hfind
            exact findNearestTarget_some d _ targets _ i hfind
          · rw [List.length_append, List.length_singleton]
            omega

theorem nnRoute_perm (d : α → α → ℚ) (targets : List α) (base : α) :
    (nnRoute d targets base).Perm (List.range targets.length) := by
  unfold nnRoute
  refine nnLoop_perm d targets targets.length [] _ List.nodup_nil ?_ ?_ ?_ ?_
  · intro x hx; cases hx
  · intro hfind i hi
    exact findNearestTarget_none d base targets [] hfind i hi
  · intro i hfind
    exact findNearestTarget_some d base targets [] i hfind
  · simp

theorem reverseRouteSegment_perm {β : Type} (r : List β) (s f : ℕ)
    (h : s ≤ f + 1) : (reverseRouteSegment r s f).Perm r := by
  unfold reverseRouteSegment
  have hmid : ((r.drop s).take (f + 1 - s)) ++ r.drop (f + 1) = r.drop s := by
    have h1 : r.drop (f + 1) = (r.drop s).drop (f + 1 - s) := by
      rw [List.drop_drop]
      congr 1
      omega
    rw [h1, List.take_append_drop]
  rw [List.append_assoc]
  have hperm : ((((r.drop s).take (f + 1 - s)).reverse) ++ r.drop (f + 1)).Perm
      (((r.drop s).take (f + 1 - s)) ++ r.drop (f + 1)) :=
    List.Perm.append_right _ (List.reverse_perm _)
  have hstep : (r.take s ++ ((((r.drop s).take (f + 1 - s)).reverse)
        ++ r.drop (f + 1))).Perm
      (r.take s ++ (((r.drop s).take (f + 1 - s)) ++ r.drop (f + 1))) :=
    hperm.append_left _
  have heq : r.take s ++ (((r.drop s).take (f + 1 - s)) ++ r.drop (f + 1)) = r := by
    rw [hmid, List.take_append_drop]
  exact hstep.trans (by rw [heq])

theorem twoOptStep_perm (d : α → α → ℚ) (targets : List α)
    (st : List ℕ × Bool) (p : ℕ × ℕ) (hp : p.1 ≤ p.2 + 1) :
    ((twoOptStep d targets st p).1).Perm st.1 := by
  unfold twoOptStep
  dsimp only
  split
  · exact reverseRouteSegment_perm st.1 p.1 p.2 hp
  · exact List.Perm.refl _

theorem foldl_twoOptStep_perm (d : α → α → ℚ) (targets : List α) :
    ∀ (l : List (ℕ × ℕ)) (st : List ℕ × Bool),
      (∀ p ∈ l, p.1 ≤ p.2 + 1) →
      ((l.foldl (twoOptStep d targets) st).1).Perm st.1 := by
  intro l
  induction l with
  | nil => intro st _; exact List.Perm.refl _
  | cons p l ih =>
      intro st hl
      rw [List.foldl_cons]
      exact (ih _ (fun q hq => hl q (List.mem_cons_of_mem _ hq))).trans
        (twoOptStep_perm d targets st p (hl p (List.mem_cons_self p l)))

theorem mem_scanPairs (n i j : ℕ) :
    (i, j) ∈ scanPairs n ↔ 1 ≤ i ∧ i < j ∧ j ≤ n - 2 := by
  unfold scanPairs
  simp only [List.mem_flatMap, List.mem_map, List.mem_range']
  constructor
  · rintro ⟨a, ⟨u, hu, hau⟩, b, ⟨v, hv, hbv⟩, heq⟩
    have h1 : a = i := congrArg Prod.fst heq
    have h2 : b = j := congrArg Prod.snd heq
    omega
  · rintro ⟨h1, h2, h3⟩
    exact ⟨i, ⟨i - 1, by omega, by omega⟩, ⟨j, ⟨j - i - 1, by omega, by omega⟩, rfl⟩⟩

theorem twoOptPass_perm (d : α → α → ℚ) (targets : List α) (r : List ℕ) :
    ((twoOptPass d targets r).1).Perm r := by
  unfold twoOptPass
  apply foldl_twoOptStep_perm
  intro p hp
  obtain ⟨i, j⟩ := p
  rw [mem_scanPairs] at hp
  omega

theorem twoOptLoop_perm (d : α → α → ℚ) (targets : List α) :
    ∀ (fuel : ℕ) (r : List ℕ), (twoOptLoop d targets fuel r).Perm r := by
  intro fuel
  induction fuel with
  | zero => intro r; exact List.Perm.refl _
  | succ fuel ih =>
      intro r
      simp only [twoOptLoop]
      split
      · exact (ih _).trans (twoOptPass_perm d targets r)
      · exact twoOptPass_perm d targets r

theorem map_getD_range (t : List α) :
    (List.range t.length).map (fun i => t.getD i default) = t := by
  apply List.ext_getElem
  · simp
  · intro n h1 h2
    simp only [List.getElem_map, List.getElem_range]
    exact List.getD_eq_getElem t default h2

theorem route_map_perm (t : List α) (route : List ℕ)
    (h : route.Perm (List.range t.length)) :
    (route.map (fun i => t.getD i default)).Perm t := by
  have h1 := h.map (fun i => t.getD i default)
  rw [map_getD_range] at h1
  exact h1

end RouteProofs

/-- C2: for every base point and every target list of length at most 50,
`orderTargets` (nearest-neighbour construction followed by 2-opt
refinement) returns exactly a permutation of its input targets — no
duplicates, no omissions.  (The proof in fact holds for every length.) -/
theorem C2_planner_permutation (hyp : ℚ → ℚ → ℚ)
    (targets : List NormalizedTrashPoint) (base : NormalizedTrashPoint)
    (h50 : targets.length ≤ 50) :
    (orderTargets hyp targets base).Perm targets := by
  unfold orderTargets
  by_cases he : targets.isEmpty
  · rw [if_pos he]
    rw [List.isEmpty_iff] at he
    rw [he]
  · rw [if_neg he]
    apply route_map_perm
    split
    · exact (twoOptLoop_perm _ _ _ _).trans (nnRoute_perm _ _ _)
    · exact nnRoute_perm _ _ _

/-- Witness for C2 on 5 concrete targets. -/
theorem C2_planner_permutation_witness :
    (orderTargets absHyp wTargets wBase).Perm wTargets :=
  C2_planner_permutation absHyp wTargets wBase (by decide)

/-! ## Tour length lemmas (towards C6) -/

section PathLenProofs

variable {α : Type} [Inhabited α]

theorem pathLen_append_cons (d : α → α → ℚ) (y : α) :
    ∀ (X Z : List α),
      pathLen d (X ++ y :: Z) = pathLen d (X ++ [y]) + pathLen d (y :: Z) := by
  intro X
  induction X with
  | nil => intro Z; simp [pathLen]
  | cons x X ih =>
      intro Z
      cases X with
      | nil => simp [pathLen]
      | cons x2 X2 =>
          simp only [List.cons_append, pathLen, List.append_eq]
          have ih2 := ih Z
          simp only [List.cons_append, List.append_eq] at ih2
          rw [ih2]
          ring

theorem pathLen_concat (d : α → α → ℚ) (y a : α) :
    ∀ X : List α, X.getLast? = some a →
      pathLen d (X ++ [y]) = pathLen d X + d a y := by
  intro X
  induction X with
  | nil => intro h; cases h
  | cons x X ih =>
      intro h
      cases X with
      | nil =>
          simp only [List.getLast?_singleton, Option.some.injEq] at h
          subst h
          simp [pathLen]
      | cons x2 X2 =>
          rw [List.getLast?_cons_cons] at h
          simp only [List.cons_append, pathLen, List.append_eq]
          have ih2 := ih h
          simp only [List.cons_append, List.append_eq] at ih2
          rw [ih2]
          ring

theorem pathLen_reverse (d : α → α → ℚ) (hsymm : ∀ a b, d a b = d b a) :
    ∀ L : List α, pathLen d L.reverse = pathLen d L := by
  intro L
  induction L with
  | nil => rfl
  | cons x t ih =>
      cases t with
      | nil => rfl
      | cons x2 t2 =>
          rw [List.reverse_cons]
          have hlast : (x2 :: t2).reverse.getLast? = some x2 := by
            rw [List.getLast?_reverse]
            rfl
          rw [pathLen_concat d x x2 _ hlast, ih]
          simp only [pathLen]
          rw [hsymm x2 x]
          ring

theorem pathLen_split (d : α → α → ℚ) (A M Q : List α) (a b c e : α)
    (hA : A.getLast? = some a) (hMh : M.head? = some b)
    (hMl : M.getLast? = some c) (hQ : Q.head? = some e) :
    pathLen d (A ++ M ++ Q)
      = pathLen d A + d a b + pathLen d M + d c e + pathLen d Q := by
  obtain ⟨M1, rfl⟩ : ∃ M1, M = b :: M1 := by
    cases M with
    | nil => cases hMh
    | cons b0 M1 =>
        rw [List.head?_cons, Option.some.injEq] at hMh
        exact ⟨M1, by rw [hMh]⟩
  obtain ⟨Q1, rfl⟩ : ∃ Q1, Q = e :: Q1 := by
    cases Q with
    | nil => cases hQ
    | cons e0 Q1 =>
        rw [List.head?_cons, Option.some.injEq] at hQ
        exact ⟨Q1, by rw [hQ]⟩
  rw [List.append_assoc]
  rw [show (b :: M1) ++ e :: Q1 = b :: (M1 ++ e :: Q1) from rfl]
  rw [pathLen_append_cons d b A (M1 ++ e :: Q1)]
  rw [pathLen_concat d b a A hA]
  rw [show b :: (M1 ++ e :: Q1) = (b :: M1) ++ e :: Q1 from rfl]
  rw [pathLen_append_cons d e (b :: M1) Q1]
  rw [pathLen_concat d e c (b :: M1) hMl]
  ring

theorem pathLen_reverseRouteSegment (d : α → α → ℚ)
    (hsymm : ∀ a b, d a b = d b a) (L : List α) (s f : ℕ)
    (h1 : 1 ≤ s) (h2 : s < f) (h3 : f + 1 < L.length) :
    pathLen d (reverseRouteSegment L s f)
      = pathLen d L
        + (d (L.getD (s - 1) default) (L.getD f default)
            + d (L.getD s default) (L.getD (f + 1) default))
        - (d (L.getD (s - 1) default) (L.getD s default)
            + d (L.getD f default) (L.getD (f + 1) default)) := by
  have hgetD : ∀ m : ℕ, m < L.length → L[m]? = some (L.getD m default) := by
    intro m hm
    rw [List.getElem?_eq_getElem hm, List.getD_eq_getElem L default hm]
  unfold reverseRouteSegment
  set A := L.take s with hA
  set M := (L.drop s).take (f + 1 - s) with hM
  set Q := L.drop (f + 1) with hQ
  have hAlen : A.length = s := by
    rw [hA, List.length_take]
    omega
  have hMlen : M.length = f + 1 - s := by
    rw [hM, List.length_take, List.length_drop]
    omega
  have hAlast : A.getLast? = some (L.getD (s - 1) default) := by
    rw [List.getLast?_eq_getElem?, hAlen, hA, List.getElem?_take,
      if_pos (show s - 1 < s by omega)]
    exact hgetD _ (by omega)
  have hMhead : M.head? = some (L.getD s default) := by
    rw [List.head?_eq_getElem?, hM, List.getElem?_take,
      if_pos (show 0 < f + 1 - s by omega), List.getElem?_drop, Nat.add_zero]
    exact hgetD _ (by omega)
  have hMlast : M.getLast? = some (L.getD f default) := by
    rw [List.getLast?_eq_getElem?, hMlen]
    have hidx : f + 1 - s - 1 = f - s := by omega
    rw [hidx, hM, List.getElem?_take, if_pos (show f - s < f + 1 - s by omega),
      List.getElem?_drop]
    have hidx2 : s + (f - s) = f := by omega
    rw [hidx2]
    exact hgetD _ (by omega)
  have hQhead : Q.head? = some (L.getD (f + 1) default) := by
    rw [List.head?_eq_getElem?, hQ, List.getElem?_drop, Nat.add_zero]
    exact hgetD _ h3
  have hMrevHead : M.reverse.head? = some (L.getD f default) := by
    rw [List.head?_reverse, hMlast]
  have hMrevLast : M.reverse.getLast? = some (L.getD s default) := by
    rw [List.getLast?_reverse, hMhead]
  have hLsplit : L = A ++ M ++ Q := by
    rw [hA, hM, hQ, List.append_assoc]
    have hdd : L.drop (f + 1) = (L.drop s).drop (f + 1 - s) := by
      rw [List.drop_drop]
      congr 1
      omega
    rw [hdd, List.take_append_drop, List.take_append_drop]
  rw [pathLen_split d A M.reverse Q _ _ _ _ hAlast hMrevHead hMrevLast hQhead]
  rw [pathLen_reverse d hsymm M]
  have hPL : pathLen d L
      = pathLen d A + d (L.getD (s - 1) default) (L.getD s default)
        + pathLen d M + d (L.getD f default) (L.getD (f + 1) default)
        + pathLen d Q := by
    conv_lhs => rw [hLsplit]
    exact pathLen_split d A M Q _ _ _ _ hAlast hMhead hMlast hQhead
  rw [hPL]
  ring

end PathLenProofs

section TourLenProofs

variable {α : Type} [Inhabited α]

theorem getD_map_pt (targets : List α) (r : List ℕ) (m : ℕ) (h : m < r.length) :
    (r.map (fun k => targets.getD k default)).getD m default
      = targets.getD (r.getD m 0) default := by
  have hm : m < (r.map (fun k => targets.getD k default)).length := by
    rwa [List.length_map]
  rw [List.getD_eq_getElem _ _ hm, List.getElem_map, List.getD_eq_getElem r 0 h]

theorem map_reverseRouteSegment {γ δ : Type} (g : γ → δ) (r : List γ) (s f : ℕ) :
    (reverseRouteSegment r s f).map g = reverseRouteSegment (r.map g) s f := by
  unfold reverseRouteSegment
  simp [List.map_take, List.map_drop]

theorem cons_reverseRouteSegment (b : α) (r : List α) (s f : ℕ) :
    b :: reverseRouteSegment r s f = reverseRouteSegment (b :: r) (s + 1) (f + 1) := by
  unfold reverseRouteSegment
  rw [List.take_succ_cons, List.drop_succ_cons, List.drop_succ_cons]
  have harith : f + 1 + 1 - (s + 1) = f + 1 - s := by omega
  rw [harith]
  simp [List.cons_append]

theorem length_reverseRouteSegment {γ : Type} (r : List γ) (s f : ℕ)
    (hs : s ≤ f + 1) : (reverseRouteSegment r s f).length = r.length := by
  unfold reverseRouteSegment
  simp only [List.length_append, List.length_reverse, List.length_take,
    List.length_drop]
  omega

theorem twoOptStep_length (d : α → α → ℚ) (targets : List α)
    (st : List ℕ × Bool) (p : ℕ × ℕ) (hp : p.1 ≤ p.2 + 1) :
    (twoOptStep d targets st p).1.length = st.1.length := by
  unfold twoOptStep
  dsimp only
  split
  · exact length_reverseRouteSegment st.1 p.1 p.2 hp
  · rfl

theorem twoOptStep_tourLen (d : α → α → ℚ) (hsymm : ∀ a b, d a b = d b a)
    (targets : List α) (base : α) (r : List ℕ) (flag : Bool) (i j : ℕ)
    (h1 : 1 ≤ i) (h2 : i < j) (h3 : j + 1 < r.length) :
    tourLen d base (((twoOptStep d targets (r, flag) (i, j)).1).map
        (fun k => targets.getD k default))
      ≤ tourLen d base (r.map (fun k => targets.getD k default)) := by
  unfold twoOptStep
  dsimp only
  split
  case isFalse => exact le_rfl
  case isTrue hcond =>
      set pt := fun k => targets.getD k default with hpt
      rw [map_reverseRouteSegment]
      unfold tourLen
      rw [cons_reverseRouteSegment]
      have hlen2 : (j + 1) + 1 < (base :: r.map pt).length := by
        rw [List.length_cons, List.length_map]
        omega
      rw [pathLen_reverseRouteSegment d hsymm (base :: r.map pt) (i + 1) (j + 1)
        (by omega) (by omega) hlen2]
      have e1 : (base :: r.map pt).getD (i + 1 - 1) default
          = pt (r.getD (i - 1) 0) := by
        have hidx : i + 1 - 1 = (i - 1) + 1 := by omega
        rw [hidx, List.getD_cons_succ]
        exact getD_map_pt targets r (i - 1) (by omega)
      have e2 : (base :: r.map pt).getD (i + 1) default = pt (r.getD i 0) := by
        rw [List.getD_cons_succ]
        exact getD_map_pt targets r i (by omega)
      have e3 : (base :: r.map pt).getD (j + 1) default = pt (r.getD j 0) := by
        rw [List.getD_cons_succ]
        exact getD_map_pt targets r j (by omega)
      have e4 : (base :: r.map pt).getD (j + 1 + 1) default
          = pt (r.getD (j + 1) 0) := by
        rw [List.getD_cons_succ]
        exact getD_map_pt targets r (j + 1) (by omega)
      rw [e1, e2, e3, e4]
      linarith [hcond]

theorem foldl_twoOptStep_tourLen (d : α → α → ℚ) (hsymm : ∀ a b, d a b = d b a)
    (targets : List α) (base : α) (n : ℕ) :
    ∀ (l : List (ℕ × ℕ)) (st : List ℕ × Bool),
      (∀ p ∈ l, 1 ≤ p.1 ∧ p.1 < p.2 ∧ p.2 + 1 < n) →
      st.1.length = n →
      (l.foldl (twoOptStep d targets) st).1.length = n ∧
      tourLen d base ((l.foldl (twoOptStep d targets) st).1.map
          (fun k => targets.getD k default))
        ≤ tourLen d base (st.1.map (fun k => targets.getD k default)) := by
  intro l
  induction l with
  | nil => intro st _ hlen; exact ⟨hlen, le_rfl⟩
  | cons p l ih =>
      intro st hl hlen
      rw [List.foldl_cons]
      obtain ⟨hp1, hp2, hp3⟩ := hl p (List.mem_cons_self p l)
      have hslen : (twoOptStep d targets st p).1.length = st.1.length :=
        twoOptStep_length d targets st p (by omega)
      have hstep : tourLen d base ((twoOptStep d targets st p).1.map
            (fun k => targets.getD k default))
          ≤ tourLen d base (st.1.map (fun k => targets.getD k default)) := by
        obtain ⟨r, flag⟩ := st
        obtain ⟨i, j⟩ := p
        exact twoOptStep_tourLen d hsymm targets base r flag i j hp1 hp2
          (by simp only [] at hlen; omega)
      have IH := ih (twoOptStep d targets st p)
        (fun q hq => hl q (List.mem_cons_of_mem _ hq)) (hslen.trans hlen)
      exact ⟨IH.1, IH.2.trans hstep⟩

theorem twoOptPass_tourLen (d : α → α → ℚ) (hsymm : ∀ a b, d a b = d b a)
    (targets : List α) (base : α) (r : List ℕ) :
    (twoOptPass d targets r).1.length = r.length ∧
    tourLen d base ((twoOptPass d targets r).1.map
        (fun k => targets.getD k default))
      ≤ tourLen d base (r.map (fun k => targets.getD k default)) := by
  unfold twoOptPass
  apply foldl_twoOptStep_tourLen d hsymm targets base r.length
  · intro p hp
    obtain ⟨i, j⟩ := p
    rw [mem_scanPairs] at hp
    omega
  · rfl

theorem twoOptLoop_tourLen (d : α → α → ℚ) (hsymm : ∀ a b, d a b = d b a)
    (targets : List α) (base : α) :
    ∀ (fuel : ℕ) (r : List ℕ),
      tourLen d base ((twoOptLoop d targets fuel r).map
          (fun k => targets.getD k default))
        ≤ tourLen d base (r.map (fun k => targets.getD k default)) := by
  intro fuel
  induction fuel with
  | zero => intro r; exact le_rfl
  | succ fuel ih =>
      intro r
      simp only [twoOptLoop]
      split
      · exact (ih _).trans (twoOptPass_tourLen d hsymm targets base r).2
      · exact (twoOptPass_tourLen d hsymm targets base r).2

end TourLenProofs

/-- C6: for every base and target list, the tour length (sum of distances
from the base through the ordered targets) after 2-opt refinement is at
most the tour length of the nearest-neighbour-only route: every accepted
reversal strictly shrinks the tour by more than `1e-6`, so refinement
never lengthens the route.  Hypothesis: the hypot function is unchanged
by negating both arguments (true of `Math.hypot`), which makes the
distance symmetric. -/
theorem C6_two_opt_non_regression (hyp : ℚ → ℚ → ℚ)
    (hs : ∀ u v, hyp u v = hyp (-u) (-v))
    (targets : List NormalizedTrashPoint) (base : NormalizedTrashPoint) :
    tourLen (fun a b => vdist hyp a.toVec b.toVec) base
        (orderTargets hyp targets base)
      ≤ tourLen (fun a b => vdist hyp a.toVec b.toVec) base
        (nnOnlyTargets hyp targets base) := by
  have hsymm : ∀ a b : NormalizedTrashPoint,
      vdist hyp a.toVec b.toVec = vdist hyp b.toVec a.toVec := by
    intro a b
    unfold vdist NormalizedTrashPoint.toVec
    rw [hs]
    congr 1 <;> ring
  unfold orderTargets nnOnlyTargets
  by_cases he : targets.isEmpty
  · rw [if_pos he, if_pos he]
  · rw [if_neg he, if_neg he]
    dsimp only
    split
    · exact twoOptLoop_tourLen _ hsymm targets base _ _
    · exact le_rfl

/-- Witness for C6 at the concrete 5-target configuration. -/
theorem C6_two_opt_non_regression_witness :
    tourLen (fun a b => vdist absHyp a.toVec b.toVec) wBase
        (orderTargets absHyp wTargets wBase)
      ≤ tourLen (fun a b => vdist absHyp a.toVec b.toVec) wBase
        (nnOnlyTargets absHyp wTargets wBase) :=
  C6_two_opt_non_regression absHyp (fun u v => absHyp_symm u v) wTargets wBase

/-! ## C8: the exact shape of the 2-opt pass -/

/-- C8 counterexample: for a 4-stop route the index pair `(1, 3)` satisfies
the claim's range `1 ≤ i < j ≤ n - 1` yet is not scanned by the pass —
the source loops stop at `j ≤ n - 2` (scanning `j = n - 1` would read
`route[j + 1]` out of bounds). -/
theorem C8_counterexample :
    (1 ≤ 1 ∧ 1 < 3 ∧ 3 ≤ 4 - 1) ∧ (1, 3) ∉ scanPairs 4 := by
  decide

/-- C8 as amended: each 2-opt pass scans exactly the index pairs `(i, j)`
with `1 ≤ i < j ≤ n - 2` (not `n - 1`); for each scanned pair it reverses
the sub-route between `i` and `j` exactly when
`dist(a,c) + dist(b,d) < dist(a,b) + dist(c,d) - 1e-6` for the neighbours
`a = route[i-1], b = route[i], c = route[j], d = route[j+1]`; and the
pass is repeated while the previous pass performed a swap. -/
theorem C8_two_opt_pass_structure {α : Type} [Inhabited α] (d : α → α → ℚ)
    (targets : List α) :
    (∀ n i j : ℕ, (i, j) ∈ scanPairs n ↔ 1 ≤ i ∧ i < j ∧ j ≤ n - 2) ∧
    (∀ r : List ℕ, twoOptPass d targets r
        = (scanPairs r.length).foldl (twoOptStep d targets) (r, false)) ∧
    (∀ (r : List ℕ) (flag : Bool) (i j : ℕ),
        twoOptStep d targets (r, flag) (i, j)
          = if d (targets.getD (r.getD (i - 1) 0) default)
                  (targets.getD (r.getD j 0) default)
                + d (targets.getD (r.getD i 0) default)
                  (targets.getD (r.getD (j + 1) 0) default)
              < d (targets.getD (r.getD (i - 1) 0) default)
                  (targets.getD (r.getD i 0) default)
                + d (targets.getD (r.getD j 0) default)
                  (targets.getD (r.getD (j + 1) 0) default)
                - 1/1000000
            then (reverseRouteSegment r i j, true) else (r, flag)) ∧
    (∀ (fuel : ℕ) (r : List ℕ),
        twoOptLoop d targets (fuel + 1) r
          = (if (twoOptPass d targets r).2 then
              twoOptLoop d targets fuel (twoOptPass d targets r).1
            else (twoOptPass d targets r).1)) := by
  refine ⟨?_, fun _ => rfl, ?_, fun _ _ => rfl⟩
  · intro n i j
    exact mem_scanPairs n i j
  · intro r flag i j
    unfold twoOptStep
    dsimp only
    apply if_congr _ rfl rfl
    constructor <;> intro h <;> linarith

/-! ## C5: the point generator's error condition -/

theorem parseArrayInput_isErr :
    ∀ (items : List RawItem) (i : ℕ),
      isErr (parseArrayInput items i) = true
        ↔ ∃ it ∈ items, lacksCoords it = true ∨ cannotResolve it = true := by
  intro items
  induction items with
  | nil =>
      intro i
      simp [parseArrayInput, isErr]
  | cons item rest ih =>
      intro i
      obtain ⟨oid, ox, oy, oty⟩ := item
      cases ox with
      | none =>
          refine iff_of_true ?_ ?_
          · cases oy <;> rfl
          · exact ⟨⟨oid, none, oy, oty⟩, List.mem_cons_self _ _, Or.inl rfl⟩
      | some x =>
          cases oy with
          | none =>
              refine iff_of_true rfl ?_
              exact ⟨⟨oid, some x, none, oty⟩, List.mem_cons_self _ _, Or.inl rfl⟩
          | some y =>
              cases oty with
              | none =>
                  refine iff_of_true rfl ?_
                  exact ⟨⟨oid, some x, some y, none⟩, List.mem_cons_self _ _,
                    Or.inr rfl⟩
              | some rt =>
                  cases hres : resolveType rt with
                  | none =>
                      refine iff_of_true ?_ ?_
                      · simp [parseArrayInput, hres, isErr]
                      · exact ⟨⟨oid, some x, some y, some rt⟩,
                          List.mem_cons_self _ _,
                          Or.inr (by simp [cannotResolve, hres])⟩
                  | some t =>
                      have hL : isErr (parseArrayInput
                            (⟨oid, some x, some y, some rt⟩ :: rest) i)
                          = isErr (parseArrayInput rest (i + 1)) := by
                        cases hpe : parseArrayInput rest (i + 1) <;>
                          simp [parseArrayInput, hres, hpe, isErr, Except.map]
                      rw [hL, ih (i + 1)]
                      constructor
                      · rintro ⟨it, hit, hbad⟩
                        exact ⟨it, List.mem_cons_of_mem _ hit, hbad⟩
                      · rintro ⟨it, hit, hbad⟩
                        rcases List.mem_cons.mp hit with rfl | hmem
                        · rcases hbad with hb | hb
                          · simp [lacksCoords] at hb
                          · simp [cannotResolve, hres] at hb
                        · exact ⟨it, hmem, hbad⟩

theorem validateEntries_isErr :
    ∀ dict : List (String × ℚ),
      isErr (validateEntries dict) = true
        ↔ ∃ e ∈ dict, e.2 ≤ 0 ∨ resolveType (rawKeyType e.1) = none := by
  intro dict
  induction dict with
  | nil => simp [validateEntries, isErr]
  | cons e rest ih =>
      obtain ⟨k, c⟩ := e
      unfold validateEntries
      by_cases hc : c ≤ 0
      · rw [if_pos hc]
        exact iff_of_true rfl ⟨(k, c), List.mem_cons_self _ _, Or.inl hc⟩
      · rw [if_neg hc]
        have hrt : (match jsNumber? k with
            | some q => RawType.num q
            | none => RawType.str k) = rawKeyType k := rfl
        rw [hrt]
        dsimp only
        cases hres : resolveType (rawKeyType k) with
        | none =>
            exact iff_of_true rfl ⟨(k, c), List.mem_cons_self _ _, Or.inr hres⟩
        | some t =>
            have hmap : ∀ (ex : Except String (List (TrashLabel × ℤ)))
                (g : List (TrashLabel × ℤ) → List (TrashLabel × ℤ)),
                isErr (ex.map g) = isErr ex := by
              intro ex g
              cases ex <;> rfl
            dsimp only
            rw [hmap, ih]
            constructor
            · rintro ⟨e1, he1, hbad⟩
              exact ⟨e1, List.mem_cons_of_mem _ he1, hbad⟩
            · rintro ⟨e1, he1, hbad⟩
              rcases List.mem_cons.mp he1 with rfl | hmem
              · rcases hbad with hb | hb
                · exact absurd hb hc
                · rw [hres] at hb
                  cases hb
              · exact ⟨e1, hmem, hbad⟩

theorem parseCountsDictionary_isErr (dict : List (String × ℚ)) :
    isErr (parseCountsDictionary dict) = true
      ↔ dict = [] ∨ ∃ e ∈ dict, e.2 ≤ 0 ∨ resolveType (rawKeyType e.1) = none := by
  unfold parseCountsDictionary
  by_cases he : dict.isEmpty
  · rw [if_pos he]
    rw [List.isEmpty_iff] at he
    exact iff_of_true rfl (Or.inl he)
  · rw [if_neg he]
    have hmap : ∀ (ex : Except String (List (TrashLabel × ℤ)))
        (g : List (TrashLabel × ℤ) → List TrashPoint),
        isErr (ex.map g) = isErr ex := by
      intro ex g
      cases ex <;> rfl
    rw [hmap, validateEntries_isErr]
    rw [List.isEmpty_iff] at he
    constructor
    · exact Or.inr
    · rintro (h | h)
      · exact absurd h he
      · exact h

/-- C5 counterexample: the empty dictionary `{}` raises a ValidationError
("Counts dictionary is empty. Provide at least one item.") although it
satisfies none of the claim's four conditions — it is an object, has no
entries lacking coordinates, no non-positive count and no unresolvable
type — so "exactly when" is false as stated. -/
theorem C5_counterexample :
    isErr (parseInput (.obj [])) = true ∧ ¬ claimedErrCond (.obj []) :=
  ⟨rfl, by simp [claimedErrCond]⟩

/-- C5 as amended: the point generator raises a ValidationError (modelled
as `Except.error`, returned synchronously with no point list — hence no
partial plan — produced) exactly when: the input is neither an array nor
an object; or an array entry lacks numeric x/y; or a dictionary count is
non-positive (the non-finite case has no inhabitant in the `ℚ` model); or
a type cannot be resolved; or — the amendment — the count dictionary is
empty. -/
theorem C5_validation_error_exactly (inp : JsInput) :
    isErr (parseInput inp) = true ↔ amendedErrCond inp := by
  cases inp with
  | other => exact iff_of_true rfl (Or.inl trivial)
  | arr items =>
      unfold parseInput amendedErrCond claimedErrCond
      rw [parseArrayInput_isErr items 0]
      constructor
      · exact Or.inl
      · rintro (h | h)
        · exact h
        · simp at h
  | obj dict =>
      unfold parseInput amendedErrCond claimedErrCond
      rw [parseCountsDictionary_isErr dict]
      constructor
      · rintro (h | h)
        · exact Or.inr (by rw [h])
        · obtain ⟨e, he, hb⟩ := h
          rcases hb with hb | hb
          · exact Or.inl (Or.inl ⟨e, he, hb⟩)
          · exact Or.inl (Or.inr ⟨e, he, hb⟩)
      · rintro (h | h)
        · rcases h with h | h
          · obtain ⟨e, he, hb⟩ := h
            exact Or.inr ⟨e, he, Or.inl hb⟩
          · obtain ⟨e, he, hb⟩ := h
            exact Or.inr ⟨e, he, Or.inr hb⟩
        · left
          simpa using h
